import Mathlib

/-!
Deployment registry lookup (service/matching/deployment_util.go).

A shallow embedding of `findDeployment` and of the two package-level error
values, followed by the properties of the lookup.

Go pointers are `Option`: `none` is the nil pointer.  A Go run-time panic is
the `error` side of `Except GoPanic`.  Go's `int` result is `Int` (an index
into an in-memory slice never overflows it).
-/

namespace Matching

/-- Run-time panics that the embedded code can raise. -/
inductive GoPanic where
  | nilPointerDereference
deriving DecidableEq, Repr

/-- Modelled from the spec: the Deployment Identity type `deploymentpb.Deployment`,
declared outside the source files.  The spec gives it two semantic fields, a
namespace-scoped name and a build/version tag (as in
`{name: "billing-worker", buildId: "v42"}`). -/
structure Deployment where
  name : String
  buildId : String
deriving DecidableEq, Repr

/-- Modelled from the spec: the Deployment Record, the element type of the
repeated field read by `GetDeployments` (its declaration is outside the source
files).  The source reads its field `Deployment`, a pointer to the identity; the
spec adds registry-internal metadata, which the lookup never reads. -/
structure DeploymentRecord where
  Deployment : Option Deployment
  metadata : Nat
deriving DecidableEq, Repr

/-- Modelled from the spec: the container `persistencespb.DeploymentData`
(declared outside the source files): an ordered sequence of pointers to
Deployment Records. -/
structure DeploymentData where
  Deployments : List (Option DeploymentRecord)
deriving DecidableEq, Repr

/-- Modelled from the spec: the nil-safe getter `GetDeployments` of the container
(generated code, outside the source files): a nil container reads as the empty
sequence. -/
def GetDeployments (deployments : Option DeploymentData) : List (Option DeploymentRecord) :=
  match deployments with
  | none => []
  | some x => x.Deployments

/-- Modelled from the spec: the generated structural-equality method `Equal` of
the identity type (outside the source files): value equality across all
semantic fields, never pointer equality.  The receiver and the argument are
pointers; a nil pointer is equal to a nil pointer only. -/
def Equal (this that : Option Deployment) : Bool :=
  match this, that with
  | none, none => true
  | some a, some b => a.name == b.name && a.buildId == b.buildId
  | _, _ => false

/-- The body of the `for i, d := range ...` loop of `findDeployment`, from index
`i` on over the remaining elements.  `d.Deployment` is a plain field read through
the pointer `d`, so a nil `d` panics. -/
def findDeploymentLoop (deployment : Option Deployment) :
    List (Option DeploymentRecord) → Nat → Except GoPanic Int
  | [], _ => .ok (-1)
  | none :: _, _ => .error .nilPointerDereference
  | some d :: rest, i =>
    if Equal d.Deployment deployment then .ok (i : Int)
    else findDeploymentLoop deployment rest (i + 1)

/-- The function `findDeployment` of deployment_util.go. -/
def findDeployment (deployments : Option DeploymentData) (deployment : Option Deployment) :
    Except GoPanic Int :=
  findDeploymentLoop deployment (GetDeployments deployments) 0

/-- Error values of the `serviceerror` package that the source constructs. -/
inductive ServiceError where
  | PermissionDenied (Message Reason : String)
  | InvalidArgument (Message : String)
deriving DecidableEq, Repr

/-- The package-level value `errDeploymentsNotAllowed`. -/
def errDeploymentsNotAllowed : ServiceError :=
  .PermissionDenied "deployments are disabled on this namespace" ""

/-- The package-level value `errMissingDeployment`. -/
def errMissingDeployment : ServiceError :=
  .InvalidArgument "missing deployment"

/-- A deployment set is well formed when every element of the sequence is a
record, that is, no element pointer is nil. -/
def wellFormed (deployments : Option DeploymentData) : Prop :=
  ∀ r ∈ GetDeployments deployments, r ≠ none

instance (deployments : Option DeploymentData) : Decidable (wellFormed deployments) := by
  unfold wellFormed; infer_instance

/-- Two identities are structurally distinct when they differ in a semantic
field. -/
def structurallyDistinct (a b : Deployment) : Prop :=
  a.name ≠ b.name ∨ a.buildId ≠ b.buildId

instance (a b : Deployment) : Decidable (structurallyDistinct a b) := by
  unfold structurallyDistinct; infer_instance

/-! ### The lookup over a heap

The same function with its pointer arguments taken as addresses into a heap
that is threaded through every step, so that what a call reads and what it
leaves behind are part of its result. -/

/-- A Go pointer into the heap: nil or the address of an object. -/
abbrev Pointer := Option Nat

/-- A record as it lies in the heap: its field `Deployment` is a pointer to an
identity object. -/
structure RecordObject where
  Deployment : Pointer
  metadata : Nat

/-- The container as it lies in the heap: the slice of element pointers. -/
structure DataObject where
  Deployments : List Pointer

/-- The heap: the objects of each Go type by address. -/
structure Heap where
  identities : Nat → Deployment
  records : Nat → RecordObject
  containers : Nat → DataObject

/-- A store into the heap: the record object at `address` is overwritten. -/
def Heap.storeRecord (h : Heap) (address : Nat) (value : RecordObject) : Heap :=
  { h with records := fun a => if a = address then value else h.records a }

/-- The identity value behind a pointer in a heap. -/
def Heap.readIdentity (h : Heap) (p : Pointer) : Option Deployment :=
  p.map h.identities

/-- The record value behind a pointer in a heap. -/
def Heap.readRecord (h : Heap) (p : Pointer) : Option DeploymentRecord :=
  p.map fun a => ⟨h.readIdentity (h.records a).Deployment, (h.records a).metadata⟩

/-- The container value behind a pointer in a heap. -/
def Heap.readData (h : Heap) (p : Pointer) : Option DeploymentData :=
  p.map fun a => ⟨(h.containers a).Deployments.map h.readRecord⟩

/-- Modelled from the spec: the nil-safe getter `GetDeployments` over the heap
(generated code, outside the source files): it loads the slice field of the
container, or gives the empty slice for a nil container, and stores nothing. -/
def GetDeploymentsH (deployments : Pointer) (h : Heap) : List Pointer × Heap :=
  match deployments with
  | none => ([], h)
  | some a => ((h.containers a).Deployments, h)

/-- Modelled from the spec: the generated method `Equal` over the heap (outside
the source files): it loads the two identities and compares them by value; the
spec has identities immutable once constructed, so it stores nothing. -/
def EqualH (this that : Pointer) (h : Heap) : Bool × Heap :=
  (Equal (h.readIdentity this) (h.readIdentity that), h)

/-- The range loop of `findDeployment` over the heap, from index `i` on: each
iteration loads the field `d.Deployment` through the element pointer `d` (a nil
`d` panics), calls `Equal`, and goes on in the heap that the call left. -/
def findDeploymentLoopH (deployment : Pointer) :
    List Pointer → Nat → Heap → Except GoPanic Int × Heap
  | [], _, h => (.ok (-1), h)
  | none :: _, _, h => (.error .nilPointerDereference, h)
  | some d :: rest, i, h =>
    let (equal, h1) := EqualH (h.records d).Deployment deployment h
    if equal then (.ok (i : Int), h1)
    else findDeploymentLoopH deployment rest (i + 1) h1

/-- The function `findDeployment` of deployment_util.go over the heap: the result
together with the heap after the call. -/
def findDeploymentH (deployments deployment : Pointer) (h : Heap) :
    Except GoPanic Int × Heap :=
  let (slice, h1) := GetDeploymentsH deployments h
  findDeploymentLoopH deployment slice 0 h1

/-- The results of `n` successive calls of `findDeployment` with the same two
pointers, each call starting in the heap that the call before it left, with the
heap after the last one. -/
def callFindDeploymentTimes (deployments deployment : Pointer) :
    Nat → Heap → List (Except GoPanic Int) × Heap
  | 0, h => ([], h)
  | n + 1, h =>
    let (r, h1) := findDeploymentH deployments deployment h
    let (rs, h2) := callFindDeploymentTimes deployments deployment n h1
    (r :: rs, h2)

/-- Modelled from the spec: the classification of an error value; the spec names
the permission-denied class and the invalid-argument class.  The `serviceerror`
package, outside the source files, has one error type per class. -/
inductive ErrorClass where
  | permissionDenied
  | invalidArgument
deriving DecidableEq, Repr

/-- The class of an error value: the `serviceerror` type it was constructed as
(`NewPermissionDenied`, `NewInvalidArgument`). -/
def ServiceError.errorClass : ServiceError → ErrorClass
  | .PermissionDenied _ _ => .permissionDenied
  | .InvalidArgument _ => .invalidArgument

/-- The message of an error value: the first argument given to its constructor. -/
def ServiceError.Message : ServiceError → String
  | .PermissionDenied message _ => message
  | .InvalidArgument message => message

/-- Outcome of one routing attempt: what the caller receives, and how many times
the lookup was invoked on the way. -/
structure RoutingOutcome where
  result : Except ServiceError (Except GoPanic Int)
  lookups : Nat
deriving Repr

/-- Modelled from the spec: the policy layer of the routing tier that wraps the
lookup; the callers of `findDeployment` are not among the source files.  A
namespace whose configuration does not permit deployment-based routing raises
DeploymentsNotAllowed on any routing attempt, a missing candidate raises
MissingDeployment, and both are checked before invoking the lookup, which runs
only when both gates have passed. -/
def routeDeployment (deploymentsAllowed : Bool) (deployments : Option DeploymentData)
    (deployment : Option Deployment) : RoutingOutcome :=
  if !deploymentsAllowed then ⟨.error errDeploymentsNotAllowed, 0⟩
  else
    match deployment with
    | none => ⟨.error errMissingDeployment, 0⟩
    | some candidate => ⟨.ok (findDeployment deployments (some candidate)), 1⟩

/-! ### Sample data -/

/-- Sample identity `{name: "billing-worker", buildId: "v42"}`. -/
def billingV42 : Deployment := ⟨"billing-worker", "v42"⟩

/-- Sample identity that differs from `billingV42` in the build tag only. -/
def billingV43 : Deployment := ⟨"billing-worker", "v43"⟩

/-- Sample identity that differs from `billingV42` in the name only. -/
def ordersV42 : Deployment := ⟨"orders-worker", "v42"⟩

/-- Sample set holding `billingV42`, `billingV43`, `ordersV42` in that order. -/
def sampleSet : DeploymentData :=
  ⟨[some ⟨some billingV42, 0⟩, some ⟨some billingV43, 1⟩, some ⟨some ordersV42, 2⟩]⟩

/-- Sample set that breaks uniqueness: `billingV43` is held at positions 1 and 2. -/
def duplicateSet : DeploymentData :=
  ⟨[some ⟨some billingV42, 0⟩, some ⟨some billingV43, 1⟩, some ⟨some billingV43, 2⟩]⟩

/-- Sample set with the identities of `sampleSet` at the same positions and other
metadata in every record. -/
def relabelledSet : DeploymentData :=
  ⟨[some ⟨some billingV42, 40⟩, some ⟨some billingV43, 41⟩, some ⟨some ordersV42, 42⟩]⟩

/-- Sample heap holding `sampleSet` as objects: the container at address 0 has the
element pointers 0, 1, 2; record `a` points to identity `a`; the identities at 0, 1,
2 are those of `sampleSet`, and a further copy of `ordersV42` lies at address 3. -/
def sampleHeap : Heap where
  identities := fun a => match a with
    | 0 => billingV42
    | 1 => billingV43
    | _ => ordersV42
  records := fun a => ⟨some a, a⟩
  containers := fun _ => ⟨[some 0, some 1, some 2]⟩

/-! ## The scan -/

theorem findDeploymentLoop_found (c : Option Deployment) :
    ∀ (l : List (Option DeploymentRecord)) (i : Nat) (r : Int),
      findDeploymentLoop c l i = .ok r → r ≠ -1 →
      ∃ (k : Nat) (d : DeploymentRecord), r = (i : Int) + k ∧ l[k]? = some (some d) ∧
        Equal d.Deployment c = true ∧
        ∀ j, j < k → ∃ e : DeploymentRecord, l[j]? = some (some e) ∧ Equal e.Deployment c = false := by
  intro l
  induction l with
  | nil =>
    intro i r h hr
    simp only [findDeploymentLoop, Except.ok.injEq] at h
    exact absurd h.symm hr
  | cons x rest ih =>
    intro i r h hr
    cases x with
    | none => simp [findDeploymentLoop] at h
    | some d =>
      by_cases hd : Equal d.Deployment c = true
      · simp only [findDeploymentLoop, hd, if_true, Except.ok.injEq] at h
        refine ⟨0, d, ?_, ?_, hd, ?_⟩
        · simp [← h]
        · simp
        · intro j hj; omega
      · simp only [findDeploymentLoop, hd, Bool.false_eq_true, if_false] at h
        obtain ⟨k, e, hk, hget, he, hlow⟩ := ih (i + 1) r h hr
        refine ⟨k + 1, e, ?_, ?_, he, ?_⟩
        · rw [hk]; push_cast; ring
        · simpa using hget
        · intro j hj
          cases j with
          | zero => exact ⟨d, by simp, by simpa using hd⟩
          | succ j =>
            obtain ⟨e2, h1, h2⟩ := hlow j (by omega)
            exact ⟨e2, by simpa using h1, h2⟩

theorem findDeploymentLoop_absent (c : Option Deployment) :
    ∀ (l : List (Option DeploymentRecord)) (i : Nat),
      findDeploymentLoop c l i = .ok (-1) ↔
        ∀ x ∈ l, ∃ d : DeploymentRecord, x = some d ∧ Equal d.Deployment c = false := by
  intro l
  induction l with
  | nil => intro i; simp [findDeploymentLoop]
  | cons x rest ih =>
    intro i
    cases x with
    | none => simp [findDeploymentLoop]
    | some d =>
      by_cases hd : Equal d.Deployment c = true
      · simp only [findDeploymentLoop, hd, if_true, Except.ok.injEq]
        constructor
        · intro h; omega
        · intro h
          obtain ⟨e, he, hf⟩ := h (some d) (by simp)
          cases he
          rw [hd] at hf; cases hf
      · have hd2 : Equal d.Deployment c = false := by simpa using hd
        simp only [findDeploymentLoop, hd2, Bool.false_eq_true, if_false, ih (i + 1)]
        constructor
        · intro h x hx
          rcases List.mem_cons.mp hx with rfl | hx
          · exact ⟨d, rfl, hd2⟩
          · exact h x hx
        · intro h x hx
          exact h x (List.mem_cons_of_mem _ hx)

theorem findDeploymentLoop_nil_element (c : Option Deployment)
    (rest : List (Option DeploymentRecord)) (i : Nat) :
    findDeploymentLoop c (none :: rest) i = .error .nilPointerDereference := rfl

theorem findDeploymentLoop_total (c : Option Deployment) :
    ∀ (l : List (Option DeploymentRecord)) (i : Nat), (∀ x ∈ l, x ≠ none) →
      ∃ r : Int, findDeploymentLoop c l i = .ok r ∧
        (r = -1 ∨ ((i : Int) ≤ r ∧ r < (i : Int) + l.length)) := by
  intro l
  induction l with
  | nil => intro i _; exact ⟨-1, rfl, Or.inl rfl⟩
  | cons x rest ih =>
    intro i hwf
    cases x with
    | none => exact absurd rfl (hwf none (by simp))
    | some d =>
      by_cases hd : Equal d.Deployment c = true
      · refine ⟨i, by simp [findDeploymentLoop, hd], Or.inr ⟨le_refl _, ?_⟩⟩
        simp only [List.length_cons]; push_cast; omega
      · obtain ⟨r, hr, hb⟩ := ih (i + 1) (fun x hx => hwf x (List.mem_cons_of_mem _ hx))
        refine ⟨r, by simpa [findDeploymentLoop, hd] using hr, ?_⟩
        rcases hb with hb | ⟨h1, h2⟩
        · exact Or.inl hb
        · refine Or.inr ⟨?_, ?_⟩
          · push_cast at h1; omega
          · simp only [List.length_cons]; push_cast at h2 ⊢; omega

theorem Equal_some_iff (a b : Deployment) : Equal (some a) (some b) = true ↔ a = b := by
  cases a; cases b; simp [Equal]

theorem Equal_some_false_iff (a b : Deployment) :
    Equal (some a) (some b) = false ↔ structurallyDistinct a b := by
  cases a; cases b
  simp only [Equal, structurallyDistinct, Bool.and_eq_false_iff, beq_eq_false_iff_ne]

theorem Equal_refl (a : Option Deployment) : Equal a a = true := by
  cases a with
  | none => rfl
  | some a => exact (Equal_some_iff a a).mpr rfl

theorem findDeploymentLoop_inserted :
    ∀ (ids : List Deployment) (records : List DeploymentRecord) (i k : Nat) (hk : k < ids.length),
      records.map DeploymentRecord.Deployment = ids.map some →
      ids.Pairwise structurallyDistinct →
      findDeploymentLoop (some (ids.get ⟨k, hk⟩)) (records.map some) i = .ok ((i : Int) + k) := by
  intro ids
  induction ids with
  | nil => intro records i k hk; simp at hk
  | cons a ids ih =>
    intro records i k hk hrec hdist
    cases records with
    | nil => simp at hrec
    | cons r records =>
      simp only [List.map_cons, List.cons.injEq] at hrec
      obtain ⟨hr, hrec⟩ := hrec
      rw [List.pairwise_cons] at hdist
      cases k with
      | zero =>
        simp [findDeploymentLoop, hr, Equal_refl]
      | succ k =>
        have hk2 : k < ids.length := by simpa using hk
        have hne : Equal r.Deployment (some (ids.get ⟨k, hk2⟩)) = false := by
          rw [hr, Equal_some_false_iff]
          exact hdist.1 _ (List.get_mem _ _ _)
        have hstep := ih records (i + 1) k hk2 hrec hdist.2
        simp only [List.map_cons, List.get_cons_succ, findDeploymentLoop, hne,
          Bool.false_eq_true, if_false, hstep]
        congr 1
        push_cast
        ring

theorem Equal_nil_right (a : Option Deployment) : Equal a none = true ↔ a = none := by
  cases a <;> simp [Equal]

/-! ## The lookup over a heap -/

theorem Heap.storeRecord_eq_self (h : Heap) (address : Nat) (value : RecordObject)
    (hsame : h.storeRecord address value = h) : h.records address = value := by
  have hr := congrArg (fun x => x.records address) hsame
  simpa [Heap.storeRecord] using hr.symm

theorem findDeploymentLoopH_eq (deployment : Pointer) :
    ∀ (l : List Pointer) (i : Nat) (h : Heap),
      findDeploymentLoopH deployment l i h =
        (findDeploymentLoop (h.readIdentity deployment) (l.map h.readRecord) i, h) := by
  intro l
  induction l with
  | nil => intro i h; rfl
  | cons d rest ih =>
    intro i h
    cases d with
    | none => rfl
    | some a =>
      by_cases he : Equal (h.readIdentity (h.records a).Deployment)
          (h.readIdentity deployment) = true
      · simp [findDeploymentLoopH, EqualH, findDeploymentLoop, Heap.readRecord, he]
      · simp [findDeploymentLoopH, EqualH, findDeploymentLoop, Heap.readRecord, he, ih]

theorem findDeploymentH_eq (deployments deployment : Pointer) (h : Heap) :
    findDeploymentH deployments deployment h =
      (findDeployment (h.readData deployments) (h.readIdentity deployment), h) := by
  cases deployments with
  | none =>
    simp [findDeploymentH, GetDeploymentsH, findDeploymentLoopH_eq, findDeployment,
      GetDeployments, Heap.readData]
  | some a =>
    simp [findDeploymentH, GetDeploymentsH, findDeploymentLoopH_eq, findDeployment,
      GetDeployments, Heap.readData]

theorem callFindDeploymentTimes_eq (deployments deployment : Pointer) :
    ∀ (n : Nat) (h : Heap),
      callFindDeploymentTimes deployments deployment n h =
        (List.replicate n (findDeploymentH deployments deployment h).1, h) := by
  intro n
  induction n with
  | zero => intro h; rfl
  | succ n ih =>
    intro h
    simp only [callFindDeploymentTimes, findDeploymentH_eq, ih, List.replicate_succ]

theorem findDeploymentH_sample :
    (findDeploymentH (some 0) (some 3) sampleHeap).1 = .ok 2 ∧
      (findDeploymentH (some 0) none sampleHeap).1 = .ok (-1) ∧
      (findDeploymentH none (some 3) sampleHeap).1 = .ok (-1) :=
  ⟨rfl, rfl, rfl⟩

/-! ## Contract of the lookup -/

/-- C1: whenever findDeployment returns a value i other than -1, i is an index
into the set (0 ≤ i < length) and the record at position i holds an identity that
is structurally equal to the candidate. -/
theorem findDeployment_index_sound (deployments : Option DeploymentData)
    (deployment : Option Deployment) (i : Int)
    (h : findDeployment deployments deployment = .ok i) (hi : i ≠ -1) :
    0 ≤ i ∧ i < ((GetDeployments deployments).length : Int) ∧
      ∃ d : DeploymentRecord, (GetDeployments deployments)[i.toNat]? = some (some d) ∧
        Equal d.Deployment deployment = true := by
  obtain ⟨k, d, hk, hget, hd, -⟩ :=
    findDeploymentLoop_found deployment (GetDeployments deployments) 0 i h hi
  have hik : i = (k : Int) := by simpa using hk
  have hlen : k < (GetDeployments deployments).length := by
    by_contra hc
    rw [List.getElem?_eq_none (by omega)] at hget
    cases hget
  subst hik
  exact ⟨by omega, by exact_mod_cast hlen, d, by simpa using hget, hd⟩

/-- Witness for C1: in the sample set the lookup of the third identity returns 2,
which is in bounds and addresses a record holding that identity. -/
theorem findDeployment_index_sound_witness :
    (0 : Int) ≤ 2 ∧ (2 : Int) < ((GetDeployments (some sampleSet)).length : Int) ∧
      ∃ d : DeploymentRecord, (GetDeployments (some sampleSet))[(2 : Int).toNat]? = some (some d) ∧
        Equal d.Deployment (some ordersV42) = true :=
  findDeployment_index_sound (some sampleSet) (some ordersV42) 2 rfl (by decide)

/-- C2: on a deployment set (a sequence of records, none of them a nil pointer)
findDeployment returns -1 if and only if no record of the set holds an identity
structurally equal to the candidate. -/
theorem findDeployment_notFound_iff (deployments : Option DeploymentData)
    (deployment : Option Deployment) (hwf : wellFormed deployments) :
    findDeployment deployments deployment = .ok (-1) ↔
      ∀ d : DeploymentRecord, some d ∈ GetDeployments deployments →
        Equal d.Deployment deployment = false := by
  unfold findDeployment
  rw [findDeploymentLoop_absent]
  constructor
  · intro h d hd
    obtain ⟨e, he, hf⟩ := h (some d) hd
    cases he
    exact hf
  · intro h x hx
    cases x with
    | none => exact absurd rfl (hwf none hx)
    | some d => exact ⟨d, rfl, h d hx⟩

/-- Witness for C2: the sample set is well formed, and an identity it does not
hold is reported as -1. -/
theorem findDeployment_notFound_iff_witness :
    wellFormed (some sampleSet) ∧
      (findDeployment (some sampleSet) (some ⟨"orders-worker", "v43"⟩) = .ok (-1) ↔
        ∀ d : DeploymentRecord, some d ∈ GetDeployments (some sampleSet) →
          Equal d.Deployment (some ⟨"orders-worker", "v43"⟩) = false) :=
  ⟨by decide, findDeployment_notFound_iff (some sampleSet) (some ⟨"orders-worker", "v43"⟩) (by decide)⟩

/-- C3: findDeployment returns the lowest matching index, also when the set breaks
uniqueness: if it returns i, no record at a position j < i holds an identity
structurally equal to the candidate. -/
theorem findDeployment_lowest_index (deployments : Option DeploymentData)
    (deployment : Option Deployment) (i : Int)
    (h : findDeployment deployments deployment = .ok i) :
    ∀ (j : Nat) (d : DeploymentRecord), (j : Int) < i →
      (GetDeployments deployments)[j]? = some (some d) →
        Equal d.Deployment deployment = false := by
  intro j d hj hget
  have hi : i ≠ -1 := by omega
  obtain ⟨k, _, hk, -, -, hlow⟩ :=
    findDeploymentLoop_found deployment (GetDeployments deployments) 0 i h hi
  have hik : i = (k : Int) := by simpa using hk
  obtain ⟨e, he, hf⟩ := hlow j (by omega)
  rw [hget] at he
  cases he
  exact hf

/-- Witness for C3: in a set holding the same identity at positions 1 and 2 the
lookup returns 1, and no earlier record matches. -/
theorem findDeployment_lowest_index_witness :
    findDeployment (some duplicateSet) (some billingV43) = .ok 1 ∧
      ∀ (j : Nat) (d : DeploymentRecord), (j : Int) < 1 →
        (GetDeployments (some duplicateSet))[j]? = some (some d) →
          Equal d.Deployment (some billingV43) = false :=
  ⟨rfl, findDeployment_lowest_index (some duplicateSet) (some billingV43) 1 rfl⟩

/-- C4: in a set whose records hold N pairwise structurally-distinct identities in
insertion order, findDeployment on the k-th inserted identity returns k (0-based)
for every k < N, and findDeployment on an identity that was not inserted returns
-1; in particular, for three distinct identities A, B, C inserted in that order,
find(C) = 2 and find(A) = 0. -/
theorem findDeployment_insertion_index (ids : List Deployment) (records : List DeploymentRecord)
    (hrec : records.map DeploymentRecord.Deployment = ids.map some)
    (hdist : ids.Pairwise structurallyDistinct) :
    (∀ (k : Nat) (hk : k < ids.length),
        findDeployment (some ⟨records.map some⟩) (some (ids.get ⟨k, hk⟩)) = .ok (k : Int)) ∧
    (∀ c : Deployment, (∀ a ∈ ids, structurallyDistinct a c) →
        findDeployment (some ⟨records.map some⟩) (some c) = .ok (-1)) ∧
    (∀ A B C : Deployment, ids = [A, B, C] →
        findDeployment (some ⟨records.map some⟩) (some C) = .ok 2 ∧
        findDeployment (some ⟨records.map some⟩) (some A) = .ok 0) := by
  have hfirst : ∀ (k : Nat) (hk : k < ids.length),
      findDeployment (some ⟨records.map some⟩) (some (ids.get ⟨k, hk⟩)) = .ok (k : Int) := by
    intro k hk
    have h := findDeploymentLoop_inserted ids records 0 k hk hrec hdist
    simpa [findDeployment, GetDeployments] using h
  refine ⟨hfirst, ?_, ?_⟩
  · intro c hc
    unfold findDeployment
    rw [findDeploymentLoop_absent]
    intro x hx
    simp only [GetDeployments, List.mem_map] at hx
    obtain ⟨r, hr, rfl⟩ := hx
    refine ⟨r, rfl, ?_⟩
    have hmem : r.Deployment ∈ ids.map some := by
      rw [← hrec]; exact List.mem_map_of_mem _ hr
    obtain ⟨a, ha, hra⟩ := List.mem_map.mp hmem
    rw [← hra, Equal_some_false_iff]
    exact hc a ha
  · intro A B C hABC
    subst hABC
    exact ⟨hfirst 2 (by simp), hfirst 0 (by simp)⟩

/-- Witness for C4: the sample set holds three pairwise distinct identities in
insertion order. -/
theorem findDeployment_insertion_index_witness :
    (∀ (k : Nat) (hk : k < [billingV42, billingV43, ordersV42].length),
        findDeployment (some sampleSet) (some ([billingV42, billingV43, ordersV42].get ⟨k, hk⟩))
          = .ok (k : Int)) ∧
    (∀ c : Deployment, (∀ a ∈ [billingV42, billingV43, ordersV42], structurallyDistinct a c) →
        findDeployment (some sampleSet) (some c) = .ok (-1)) ∧
    (∀ A B C : Deployment, [billingV42, billingV43, ordersV42] = [A, B, C] →
        findDeployment (some sampleSet) (some C) = .ok 2 ∧
        findDeployment (some sampleSet) (some A) = .ok 0) :=
  findDeployment_insertion_index [billingV42, billingV43, ordersV42]
    [⟨some billingV42, 0⟩, ⟨some billingV43, 1⟩, ⟨some ordersV42, 2⟩] rfl (by decide)

/-- C5: on an empty deployment set findDeployment returns -1 for every candidate. -/
theorem findDeployment_empty (deployment : Option Deployment) :
    findDeployment (some ⟨[]⟩) deployment = .ok (-1) := rfl

/-- C6: findDeployment matches by value: for two identities built independently
with identical fields, looking up one in a set whose only record holds the other
returns index 0, whatever the metadata of the record. -/
theorem findDeployment_matches_by_value (held candidate : Deployment) (metadata : Nat)
    (hname : held.name = candidate.name) (hbuild : held.buildId = candidate.buildId) :
    findDeployment (some ⟨[some ⟨some held, metadata⟩]⟩) (some candidate) = .ok 0 := by
  have h : Equal (some held) (some candidate) = true := by
    cases held; cases candidate; simp_all [Equal]
  simp [findDeployment, GetDeployments, findDeploymentLoop, h]

/-- Witness for C6: two separately written identities, both
`{name: "billing-worker", buildId: "v42"}`, match each other. -/
theorem findDeployment_matches_by_value_witness :
    findDeployment (some ⟨[some ⟨some ⟨"billing-worker", "v42"⟩, 7⟩]⟩) (some billingV42) = .ok 0 :=
  findDeployment_matches_by_value ⟨"billing-worker", "v42"⟩ billingV42 7 rfl rfl

/-- C7: the equality used by findDeployment compares every semantic field: a record
identity and a candidate that differ in the name or in the build tag (even when
the other field is identical) are not equal, and a set containing only that
record yields -1. -/
theorem findDeployment_compares_every_field (held candidate : Deployment) (metadata : Nat)
    (hdiff : held.name ≠ candidate.name ∨ held.buildId ≠ candidate.buildId) :
    Equal (some held) (some candidate) = false ∧
      findDeployment (some ⟨[some ⟨some held, metadata⟩]⟩) (some candidate) = .ok (-1) := by
  have h : Equal (some held) (some candidate) = false :=
    (Equal_some_false_iff held candidate).mpr hdiff
  exact ⟨h, by simp [findDeployment, GetDeployments, findDeploymentLoop, h]⟩

/-- Witness for C7: same name, different build tag. -/
theorem findDeployment_compares_every_field_witness :
    (billingV42.name ≠ billingV43.name ∨ billingV42.buildId ≠ billingV43.buildId) ∧
      Equal (some billingV42) (some billingV43) = false ∧
      findDeployment (some ⟨[some ⟨some billingV42, 0⟩]⟩) (some billingV43) = .ok (-1) :=
  ⟨by decide, findDeployment_compares_every_field billingV42 billingV43 0 (by decide)⟩

/-- C8: findDeployment is total and error-free over well-formed inputs: for every
deployment set (a finite sequence of records, none of them a nil pointer) and
every non-nil candidate it returns an integer, which is -1 or an index into the
set, and does not panic. -/
theorem findDeployment_total (deployments : Option DeploymentData) (candidate : Deployment)
    (hwf : wellFormed deployments) :
    ∃ i : Int, findDeployment deployments (some candidate) = .ok i ∧
      (i = -1 ∨ (0 ≤ i ∧ i < ((GetDeployments deployments).length : Int))) := by
  obtain ⟨r, hr, hb⟩ :=
    findDeploymentLoop_total (some candidate) (GetDeployments deployments) 0 hwf
  refine ⟨r, hr, ?_⟩
  rcases hb with hb | ⟨h1, h2⟩
  · exact Or.inl hb
  · exact Or.inr ⟨by simpa using h1, by simpa using h2⟩

/-- Witness for C8: the sample set is well formed and the lookup of an identity
returns an integer. -/
theorem findDeployment_total_witness :
    wellFormed (some sampleSet) ∧
      ∃ i : Int, findDeployment (some sampleSet) (some billingV43) = .ok i ∧
        (i = -1 ∨ (0 ≤ i ∧ i < ((GetDeployments (some sampleSet)).length : Int))) :=
  ⟨by decide, findDeployment_total (some sampleSet) billingV43 (by decide)⟩

/-- The lookup itself has no guard on the candidate: called directly with a nil
candidate on the sample set, it runs the scan and returns -1.  Rejecting a nil
candidate is the business of the layer that calls it. -/
theorem findDeployment_nil_candidate_reports_notFound :
    findDeployment (some sampleSet) none = .ok (-1) := rfl

/-- The lookup called directly with a nil candidate on a well-formed set returns an
integer, which is -1 exactly when every record holds a non-nil identity, and
which otherwise addresses a record whose identity pointer is nil. -/
theorem findDeployment_nil_candidate (deployments : Option DeploymentData)
    (hwf : wellFormed deployments) :
    ∃ i : Int, findDeployment deployments none = .ok i ∧
      (i = -1 ↔ ∀ d : DeploymentRecord, some d ∈ GetDeployments deployments →
        d.Deployment ≠ none) ∧
      (i ≠ -1 → ∃ d : DeploymentRecord,
        (GetDeployments deployments)[i.toNat]? = some (some d) ∧ d.Deployment = none) := by
  obtain ⟨r, hr, -⟩ := findDeploymentLoop_total none (GetDeployments deployments) 0 hwf
  refine ⟨r, hr, ?_, ?_⟩
  · constructor
    · intro h d hd
      subst h
      obtain ⟨e, he, hf⟩ :=
        (findDeploymentLoop_absent none (GetDeployments deployments) 0).mp hr (some d) hd
      cases he
      intro hnil
      rw [(Equal_nil_right _).mpr hnil] at hf
      cases hf
    · intro h
      have habs : findDeploymentLoop none (GetDeployments deployments) 0 = .ok (-1) := by
        rw [findDeploymentLoop_absent]
        intro x hx
        cases x with
        | none => exact absurd rfl (hwf none hx)
        | some d =>
          refine ⟨d, rfl, ?_⟩
          cases hE : Equal d.Deployment none with
          | false => rfl
          | true => exact absurd ((Equal_nil_right _).mp hE) (h d hx)
      have hr2 : findDeploymentLoop none (GetDeployments deployments) 0 = .ok r := hr
      rw [habs] at hr2
      cases hr2
      rfl
  · intro hne
    obtain ⟨k, d, hk, hget, hd, -⟩ :=
      findDeploymentLoop_found none (GetDeployments deployments) 0 r hr hne
    have hik : r = (k : Int) := by simpa using hk
    subst hik
    exact ⟨d, by simpa using hget, (Equal_nil_right _).mp hd⟩

/-- Instance of `findDeployment_nil_candidate` on the sample set. -/
theorem findDeployment_nil_candidate_witness :
    wellFormed (some sampleSet) ∧
      ∃ i : Int, findDeployment (some sampleSet) none = .ok i ∧
        (i = -1 ↔ ∀ d : DeploymentRecord, some d ∈ GetDeployments (some sampleSet) →
          d.Deployment ≠ none) ∧
        (i ≠ -1 → ∃ d : DeploymentRecord,
          (GetDeployments (some sampleSet))[i.toNat]? = some (some d) ∧ d.Deployment = none) :=
  ⟨by decide, findDeployment_nil_candidate (some sampleSet) (by decide)⟩

/-- C9: a missing candidate identity (a nil pointer) is a caller error and is never
reported as not found: for every deployment set, a lookup that goes through the
policy layer with a nil candidate is signalled as errMissingDeployment and the
scan does not run (no lookup is invoked); whatever the namespace permits, such an
attempt never yields a lookup result, in particular not -1. -/
theorem routeDeployment_missing_candidate (deployments : Option DeploymentData) :
    (routeDeployment true deployments none).result = .error errMissingDeployment ∧
      (routeDeployment true deployments none).lookups = 0 ∧
      ∀ deploymentsAllowed : Bool,
        (routeDeployment deploymentsAllowed deployments none).result ≠ .ok (.ok (-1)) ∧
        (∀ r, (routeDeployment deploymentsAllowed deployments none).result ≠ .ok r) ∧
        (routeDeployment deploymentsAllowed deployments none).lookups = 0 := by
  refine ⟨rfl, rfl, ?_⟩
  intro deploymentsAllowed
  cases deploymentsAllowed <;> simp [routeDeployment]

/-- C10: findDeployment is a pure read-only query: a call leaves the heap, and so
the deployment set and the candidate in it, as it found it; any number of
successive calls with the same deployment set and candidate return the same
result each time; and that result is the one of the lookup on the values that
the heap holds behind the two pointers. -/
theorem findDeployment_read_only (deployments deployment : Pointer) (n : Nat) (h : Heap) :
    (findDeploymentH deployments deployment h).2 = h ∧
      (callFindDeploymentTimes deployments deployment n h).1 =
        List.replicate n (findDeploymentH deployments deployment h).1 ∧
      (callFindDeploymentTimes deployments deployment n h).2 = h ∧
      (findDeploymentH deployments deployment h).1 =
        findDeployment (h.readData deployments) (h.readIdentity deployment) := by
  rw [callFindDeploymentTimes_eq, findDeploymentH_eq]
  exact ⟨rfl, rfl, rfl, rfl⟩

/-! ## Error values, append, metadata and the nil container -/

theorem findDeploymentLoop_shift (c : Option Deployment) (k : Nat) :
    ∀ (l : List (Option DeploymentRecord)) (i : Nat) (r : Int),
      findDeploymentLoop c l i = .ok r → r ≠ -1 →
      findDeploymentLoop c l (i + k) = .ok (r + k) := by
  intro l
  induction l with
  | nil =>
    intro i r h hr
    simp only [findDeploymentLoop, Except.ok.injEq] at h
    exact absurd h.symm hr
  | cons x rest ih =>
    intro i r h hr
    cases x with
    | none => simp [findDeploymentLoop] at h
    | some d =>
      by_cases hd : Equal d.Deployment c = true
      · simp only [findDeploymentLoop, hd, if_true, Except.ok.injEq] at h ⊢
        rw [← h]; push_cast; ring
      · simp only [findDeploymentLoop, hd, Bool.false_eq_true, if_false] at h ⊢
        have hstep := ih (i + 1) r h hr
        have hidx : i + k + 1 = i + 1 + k := by omega
        rw [hidx]
        exact hstep

theorem findDeploymentLoop_append_found (c : Option Deployment)
    (t : List (Option DeploymentRecord)) :
    ∀ (s : List (Option DeploymentRecord)) (i : Nat) (r : Int),
      findDeploymentLoop c s i = .ok r → r ≠ -1 →
      findDeploymentLoop c (s ++ t) i = .ok r := by
  intro s
  induction s with
  | nil =>
    intro i r h hr
    simp only [findDeploymentLoop, Except.ok.injEq] at h
    exact absurd h.symm hr
  | cons x rest ih =>
    intro i r h hr
    cases x with
    | none => simp [findDeploymentLoop] at h
    | some d =>
      by_cases hd : Equal d.Deployment c = true
      · simpa only [List.cons_append, findDeploymentLoop, hd, if_true] using h
      · simp only [List.cons_append, findDeploymentLoop, hd, Bool.false_eq_true, if_false] at h ⊢
        exact ih (i + 1) r h hr

theorem findDeploymentLoop_append_absent (c : Option Deployment)
    (t : List (Option DeploymentRecord)) :
    ∀ (s : List (Option DeploymentRecord)) (i : Nat),
      findDeploymentLoop c s i = .ok (-1) →
      findDeploymentLoop c (s ++ t) i = findDeploymentLoop c t (i + s.length) := by
  intro s
  induction s with
  | nil => intro i _; simp
  | cons x rest ih =>
    intro i h
    cases x with
    | none => simp [findDeploymentLoop] at h
    | some d =>
      by_cases hd : Equal d.Deployment c = true
      · simp only [findDeploymentLoop, hd, if_true, Except.ok.injEq] at h
        omega
      · simp only [List.cons_append, findDeploymentLoop, hd, Bool.false_eq_true, if_false,
          List.length_cons] at h ⊢
        have hstep := ih (i + 1) h
        have hidx : i + (rest.length + 1) = i + 1 + rest.length := by omega
        rw [hidx]
        exact hstep

theorem findDeploymentLoop_identities (c : Option Deployment) :
    ∀ (l1 l2 : List (Option DeploymentRecord)) (i : Nat),
      l1.map (Option.map DeploymentRecord.Deployment)
        = l2.map (Option.map DeploymentRecord.Deployment) →
      findDeploymentLoop c l1 i = findDeploymentLoop c l2 i := by
  intro l1
  induction l1 with
  | nil =>
    intro l2 i h
    cases l2 with
    | nil => rfl
    | cons y l2 => simp at h
  | cons x l1 ih =>
    intro l2 i h
    cases l2 with
    | nil => simp at h
    | cons y l2 =>
      simp only [List.map_cons, List.cons.injEq] at h
      obtain ⟨hxy, hrest⟩ := h
      cases x with
      | none =>
        cases y with
        | none => rfl
        | some e => simp at hxy
      | some d =>
        cases y with
        | none => simp at hxy
        | some e =>
          have hde : d.Deployment = e.Deployment := by simpa using hxy
          simp only [findDeploymentLoop, hde, ih l2 (i + 1) hrest]

/-- C11: the two policy errors have a fixed classification and a fixed message:
errDeploymentsNotAllowed is of the permission-denied class with message
"deployments are disabled on this namespace", errMissingDeployment is of the
invalid-argument class with message "missing deployment", and the two are
distinct error values. -/
theorem policy_errors_fixed :
    errDeploymentsNotAllowed.errorClass = ErrorClass.permissionDenied ∧
      errDeploymentsNotAllowed.Message = "deployments are disabled on this namespace" ∧
      errMissingDeployment.errorClass = ErrorClass.invalidArgument ∧
      errMissingDeployment.Message = "missing deployment" ∧
      errDeploymentsNotAllowed ≠ errMissingDeployment :=
  ⟨rfl, rfl, rfl, rfl, by simp [errDeploymentsNotAllowed, errMissingDeployment]⟩

/-- C12: for a namespace whose configuration does not permit deployment-based
routing, every routing attempt, whatever the deployment set and the candidate,
fails with errDeploymentsNotAllowed, and the lookup is not invoked. -/
theorem routeDeployment_disabled (deployments : Option DeploymentData)
    (deployment : Option Deployment) :
    (routeDeployment false deployments deployment).result = .error errDeploymentsNotAllowed ∧
      (routeDeployment false deployments deployment).lookups = 0 :=
  ⟨rfl, rfl⟩

/-- C13: indices are stable under append.  If findDeployment on s returns an index
i other than -1, it returns the same i on s followed by t.  If it returns -1 on s,
then on s followed by t it returns -1 when the lookup on t returns -1, and
length(s) plus the index found in t when the lookup on t returns an index. -/
theorem findDeployment_append (s t : List (Option DeploymentRecord))
    (deployment : Option Deployment) :
    (∀ i : Int, findDeployment (some ⟨s⟩) deployment = .ok i → i ≠ -1 →
        findDeployment (some ⟨s ++ t⟩) deployment = .ok i) ∧
    (findDeployment (some ⟨s⟩) deployment = .ok (-1) →
      (findDeployment (some ⟨t⟩) deployment = .ok (-1) →
          findDeployment (some ⟨s ++ t⟩) deployment = .ok (-1)) ∧
      (∀ j : Int, findDeployment (some ⟨t⟩) deployment = .ok j → j ≠ -1 →
          findDeployment (some ⟨s ++ t⟩) deployment = .ok ((s.length : Int) + j))) := by
  refine ⟨?_, ?_⟩
  · intro i hi hne
    exact findDeploymentLoop_append_found deployment t s 0 i hi hne
  · intro hs
    have happ : findDeployment (some ⟨s ++ t⟩) deployment
        = findDeploymentLoop deployment t s.length := by
      have h := findDeploymentLoop_append_absent deployment t s 0 hs
      simpa [findDeployment, GetDeployments] using h
    refine ⟨?_, ?_⟩
    · intro ht
      rw [happ]
      exact (findDeploymentLoop_absent deployment t s.length).mpr
        ((findDeploymentLoop_absent deployment t 0).mp ht)
    · intro j hj hne
      rw [happ]
      have h := findDeploymentLoop_shift deployment s.length t 0 j hj hne
      rw [Nat.zero_add] at h
      rw [h, add_comm]

/-- Witness for C13: with s the first two records of the sample set and t the
third, an identity found in s keeps its index, and an identity found only in t
is found at length(s) plus its index in t. -/
theorem findDeployment_append_witness :
    findDeployment
        (some ⟨[some ⟨some billingV42, 0⟩, some ⟨some billingV43, 1⟩] ++ [some ⟨some ordersV42, 2⟩]⟩)
        (some billingV43) = .ok 1 ∧
      findDeployment
        (some ⟨[some ⟨some billingV42, 0⟩, some ⟨some billingV43, 1⟩] ++ [some ⟨some ordersV42, 2⟩]⟩)
        (some ordersV42)
          = .ok ((([some ⟨some billingV42, 0⟩, some ⟨some billingV43, 1⟩] :
              List (Option DeploymentRecord)).length : Int) + 0) :=
  ⟨(findDeployment_append [some ⟨some billingV42, 0⟩, some ⟨some billingV43, 1⟩]
      [some ⟨some ordersV42, 2⟩] (some billingV43)).1 1 rfl (by decide),
   ((findDeployment_append [some ⟨some billingV42, 0⟩, some ⟨some billingV43, 1⟩]
      [some ⟨some ordersV42, 2⟩] (some ordersV42)).2 rfl).2 0 rfl (by decide)⟩

/-- C14: the result of findDeployment depends only on the sequence of identities:
on two deployment sets of equal length that hold equal identities at each
position, whatever the other contents of their records, it returns the same
result for every candidate. -/
theorem findDeployment_metadata_independent (first second : Option DeploymentData)
    (deployment : Option Deployment)
    (h : (GetDeployments first).map (Option.map DeploymentRecord.Deployment)
      = (GetDeployments second).map (Option.map DeploymentRecord.Deployment)) :
    findDeployment first deployment = findDeployment second deployment :=
  findDeploymentLoop_identities deployment (GetDeployments first) (GetDeployments second) 0 h

/-- Witness for C14: the sample set and a set with the same identities and other
metadata give the same result. -/
theorem findDeployment_metadata_independent_witness :
    sampleSet ≠ relabelledSet ∧
      findDeployment (some sampleSet) (some ordersV42)
        = findDeployment (some relabelledSet) (some ordersV42) :=
  ⟨by decide, findDeployment_metadata_independent (some sampleSet) (some relabelledSet)
    (some ordersV42) rfl⟩

/-- C15: a nil deployment-data container is treated as an empty set: the nil-safe
getter reads it as the empty sequence, and findDeployment returns -1 for every
candidate, as it does on an empty set, rather than failing. -/
theorem findDeployment_nil_container (deployment : Option Deployment) :
    GetDeployments none = [] ∧
      findDeployment none deployment = .ok (-1) ∧
      findDeployment none deployment = findDeployment (some ⟨[]⟩) deployment :=
  ⟨rfl, rfl, rfl⟩

end Matching
